import Mathlib

/-!
# Verification of the university-portal scraping core

Shallow embedding of the extraction, caching, locator and login-decision
logic of the scraping backend (`boss_scraper.py`, `main.py`,
`app/scrapers/moodle_scraper.py`, `app/scrapers/lsf_scraper.py`).

Effectful browser interaction is modelled by passing the observed page
state (URLs, page sources, DOM query results) explicitly; library calls
from outside the repository (the `dateparser` package, the regex engine)
are passed as function parameters; `hashlib.sha256` is embedded in full.
Python `float` values are modelled as rationals, Python string truthiness
(`if s:`) as inequality with the empty value.
-/

/-! ## Python string primitives -/

/-- Is `needle` a prefix of `hay`?  Helper for substring search. -/
def listPrefixOf : List Char → List Char → Bool
  | [], _ => true
  | _ :: _, [] => false
  | a :: as_, b :: bs => a == b && listPrefixOf as_ bs

/-- Python's `needle in hay` substring test, on char lists. -/
def listContainsSub (hay needle : List Char) : Bool :=
  match hay with
  | [] => needle.isEmpty
  | _ :: t => listPrefixOf needle hay || listContainsSub t needle

/-- Python's `needle in hay` substring test on strings (`"" in s` is true). -/
def strContains (hay needle : String) : Bool :=
  listContainsSub hay.data needle.data

/-- Python `str.strip()`: drop leading and trailing whitespace. -/
def pyStrip (s : String) : String :=
  ⟨((s.data.dropWhile Char.isWhitespace).reverse.dropWhile Char.isWhitespace).reverse⟩

/-- Python `str.lower()` (ASCII range, which covers every keyword the
scrapers compare against). -/
def pyLower (s : String) : String :=
  ⟨s.data.map Char.toLower⟩

/-- Python `str.replace(',', '.')` — used to normalise German decimal commas. -/
def commaToDot (s : String) : String :=
  ⟨s.data.map (fun c => if c = ',' then '.' else c)⟩

/-- Value of a digit list, base 10. -/
def digitsToNat (l : List Char) : ℕ :=
  l.foldl (fun a c => a * 10 + (c.toNat - 48)) 0

/-- Python `float(s)` on the plain decimal literals the portals emit
(optional sign, digits, optional fractional part); every other string —
in particular `""` and status words — raises, modelled as `none`. -/
def parseFloat (s : String) : Option ℚ :=
  let p : ℤ × List Char :=
    match s.data with
    | '-' :: r => (-1, r)
    | '+' :: r => (1, r)
    | r => (1, r)
  let intPart := p.2.takeWhile Char.isDigit
  let rest := p.2.dropWhile Char.isDigit
  match rest with
  | [] =>
    if intPart.isEmpty then none
    else some ((p.1 : ℚ) * (digitsToNat intPart : ℚ))
  | '.' :: r2 =>
    let frac := r2.takeWhile Char.isDigit
    let rest2 := r2.dropWhile Char.isDigit
    if rest2.isEmpty && !(intPart.isEmpty && frac.isEmpty) then
      some ((p.1 : ℚ) *
        ((digitsToNat intPart : ℚ) + (digitsToNat frac : ℚ) / (10 ^ frac.length : ℚ)))
    else none
  | _ => none

/-- Round-half-to-even of a rational to an integer (Python's `round`). -/
def roundHalfEven (q : ℚ) : ℤ :=
  let f := ⌊q⌋
  let r := q - (f : ℚ)
  if r < 1/2 then f
  else if 1/2 < r then f + 1
  else if f % 2 = 0 then f else f + 1

/-- Python `round(x, 2)`. -/
def pyRound2 (q : ℚ) : ℚ :=
  ((roundHalfEven (q * 100) : ℤ) : ℚ) / 100

/-- Truthiness of an optional string (`exam.get('title')`):
present and non-empty. -/
def optStrTruthy : Option String → Bool
  | some s => s ≠ ""
  | none => false

/-- Truthiness of an optional number (`exam.get('grade')` /
`exam.get('credits')`): present and non-zero. -/
def optRatTruthy : Option ℚ → Bool
  | some q => q ≠ 0
  | none => false

/-! ## Exam-table extraction (`BossScraper.extract_grades`)

The HTML snapshot is modelled at the level BeautifulSoup exposes it to the
source: a document is a list of tables, a table a list of rows, a row its
`<th>` cell texts and `<td>` cell texts in document order. -/

/-- One `<tr>`: its `<th>` cell texts and `<td>` cell texts. -/
structure RowHtml where
  ths : List String
  tds : List String
deriving DecidableEq, Repr

/-- A `<table>` as a list of rows. -/
abbrev TableHtml := List RowHtml

/-- BeautifulSoup `table.get_text()`: concatenation of all cell texts in document order. -/
def tableText (t : TableHtml) : String :=
  String.join (t.map (fun r => String.join (r.ths ++ r.tds)))

/-- The target-table test of `extract_grades`: the table text contains one
of the domain markers. -/
def isTargetTable (t : TableHtml) : Bool :=
  strContains (tableText t) "Prüfung" || strContains (tableText t) "Exam" ||
    strContains (tableText t) "ECTS"

/-- Column-index map built from header cells, one optional index per field. -/
structure HeaderMap where
  id : Option ℕ := none
  title : Option ℕ := none
  semester : Option ℕ := none
  grade : Option ℕ := none
  status : Option ℕ := none
  credits : Option ℕ := none
deriving DecidableEq, Repr

/-- The emptiness test `if not header_map:` — no field was ever assigned. -/
def headerMapIsEmpty (m : HeaderMap) : Bool :=
  m.id == none && m.title == none && m.semester == none && m.grade == none &&
    m.status == none && m.credits == none

/-- The fixed fallback layout used when no header row was recognised. -/
def defaultHeaderMap : HeaderMap :=
  { id := some 0, title := some 1, semester := some 2, grade := some 3,
    status := some 4, credits := some 5 }

/-- Keyword-substring classification of one header cell at index `idx`,
in the source's `if`/`elif` order. -/
def headerUpdate (m : HeaderMap) (idx : ℕ) (cell : String) : HeaderMap :=
  let t := pyLower (pyStrip cell)
  if strContains t "nr" || (strContains t "id" && !strContains t "ver") then
    { m with id := some idx }
  else if strContains t "text" || strContains t "bezeichnung" then
    { m with title := some idx }
  else if strContains t "sem" then
    { m with semester := some idx }
  else if strContains t "note" || strContains t "grade" then
    { m with grade := some idx }
  else if strContains t "status" || strContains t "vermerk" then
    { m with status := some idx }
  else if strContains t "ects" || strContains t "credit" || strContains t "bonus" then
    { m with credits := some idx }
  else m

/-- Process one header row: classify each `<th>` with its position. -/
def headerRowUpdate (m : HeaderMap) (ths : List String) : HeaderMap :=
  (ths.enum).foldl (fun acc p => headerUpdate acc p.1 p.2) m

/-- First pass of `extract_grades`: accumulate the header map and collect
the data rows (rows without `<th>` cells and with at least three `<td>`s). -/
def splitRows (rows : List RowHtml) : HeaderMap × List (List String) :=
  rows.foldl
    (fun acc r =>
      if r.ths ≠ [] then (headerRowUpdate acc.1 r.ths, acc.2)
      else if r.tds.length < 3 then acc
      else (acc.1, acc.2 ++ [r.tds]))
    ({}, [])

/-- One extracted exam record.  `none` is a missing dict key (or Python
`None` for the grade); the credits field is `some 0` when the cell failed
to parse, mirroring the source's `except` branch. -/
structure Exam where
  exam_id : Option String := none
  title : Option String := none
  semester : Option String := none
  grade : Option ℚ := none
  status : Option String := none
  credits : Option ℚ := none
deriving DecidableEq, Repr

/-- The summary dict `{"total_credits": …, "current_gpa": …}`. -/
structure Summary where
  total_credits : ℚ
  current_gpa : ℚ
deriving DecidableEq, Repr

/-- Cell access `cells[idx].get_text(strip=True)` guarded by
`idx is not None and idx < len(cells)`. -/
def getCell (cells : List String) : Option ℕ → Option String
  | some i => if h : i < cells.length then some (pyStrip (cells.get ⟨i, h⟩)) else none
  | none => none

/-- The credit-accrual condition of `extract_grades`:
`exam.get('status') == "bestanden" or (exam['grade'] and exam['grade'] <= 4.0)`. -/
def countsTowardTotal (status : Option String) (grade : Option ℚ) : Bool :=
  status == some "bestanden" ||
    (match grade with
     | some g => decide (g ≠ 0 ∧ g ≤ 4)
     | none => false)

/-- Loop state of the data-row pass: records so far and the running
credit/grade aggregates. -/
structure GradeAcc where
  exams : List Exam
  total_ects : ℚ
  grade_sum : ℚ
  graded_count : ℕ
deriving Repr

/-- Process one data row of `extract_grades`: build the record, feed the
grade into the running mean (whenever it parses positive, appended or not)
and the credits into the passing total under `countsTowardTotal`. -/
def processDataRow (hm : HeaderMap) (acc : GradeAcc) (cells : List String) : GradeAcc :=
  let title := getCell cells hm.title
  let examId := getCell cells hm.id
  let semester := getCell cells hm.semester
  let rawGrade := commaToDot ((getCell cells hm.grade).getD "")
  let grade := parseFloat rawGrade
  let sums : ℚ × ℕ :=
    match grade with
    | some g =>
      if 0 < g then (acc.grade_sum + g, acc.graded_count + 1)
      else (acc.grade_sum, acc.graded_count)
    | none => (acc.grade_sum, acc.graded_count)
  let status := getCell cells hm.status
  let creditsAndAdd : Option ℚ × ℚ :=
    match getCell cells hm.credits with
    | none => (none, 0)
    | some raw =>
      match parseFloat (commaToDot raw) with
      | none => (some 0, 0)
      | some c => (some c, if countsTowardTotal status grade then c else 0)
  let exam : Exam :=
    { exam_id := examId, title := title, semester := semester,
      grade := grade, status := status, credits := creditsAndAdd.1 }
  { exams := if optStrTruthy title then acc.exams ++ [exam] else acc.exams
    total_ects := acc.total_ects + creditsAndAdd.2
    grade_sum := sums.1
    graded_count := sums.2 }

/-- The data-row pass of `extract_grades` over the target table: header
map (with the fixed fallback when empty) and fold over the data rows. -/
def gradeAccOf (t : TableHtml) : GradeAcc :=
  let split := splitRows t
  let hm := if headerMapIsEmpty split.1 then defaultHeaderMap else split.1
  split.2.foldl (processDataRow hm) ⟨[], 0, 0, 0⟩

/-- The final summary step of `extract_grades`: the last record's grade
and credits are taken as the official GPA / total ECTS when truthy, and
override the row-by-row aggregates when positive. -/
def summarize (acc : GradeAcc) : Summary :=
  let officialGpa : ℚ :=
    match acc.exams.getLast? with
    | some e => if optRatTruthy e.grade then e.grade.getD 0 else 0
    | none => 0
  let officialEcts : ℚ :=
    match acc.exams.getLast? with
    | some e => if optRatTruthy e.credits then e.credits.getD 0 else 0
    | none => 0
  let finalGpa : ℚ :=
    if 0 < officialGpa then officialGpa
    else if 0 < acc.graded_count then pyRound2 (acc.grade_sum / (acc.graded_count : ℚ))
    else 0
  let finalEcts : ℚ := if 0 < officialEcts then officialEcts else acc.total_ects
  ⟨finalEcts, finalGpa⟩

/-- The function `BossScraper.extract_grades` on a captured document.  Returns the
record list and the summary; `([], none)` models the `return [], {}` path
taken when no table carries a domain marker. -/
def extract_grades (doc : List TableHtml) : List Exam × Option Summary :=
  match doc.find? isTargetTable with
  | none => ([], none)
  | some t => ((gradeAccOf t).exams, some (summarize (gradeAccOf t)))

/-- The spec's end-to-end fixture: header `[Nr, Text, Sem, Note, Status,
ECTS]` and the two data rows for `Analysis I` and `Fancy AI`. -/
def fixtureEndToEnd : List TableHtml :=
  [[⟨["Nr", "Text", "Sem", "Note", "Status", "ECTS"], []⟩,
    ⟨[], ["1", "Analysis I", "WS23", "2,0", "bestanden", "9"]⟩,
    ⟨[], ["2", "Fancy AI", "SS24", "", "nicht bestanden", "5"]⟩]]

/-- If the last extracted record carries a truthy positive grade and
truthy positive credits, the summary is exactly that pair. -/
theorem summarize_last_override (acc : GradeAcc) (e : Exam) (g c : ℚ)
    (h : acc.exams.getLast? = some e)
    (hg : e.grade = some g) (hg0 : 0 < g)
    (hc : e.credits = some c) (hc0 : 0 < c) :
    summarize acc = ⟨c, g⟩ := by
  simp only [summarize, h, hg, hc, optRatTruthy, Option.getD_some, decide_eq_true_eq]
  simp [hg0, hc0, hg0.ne', hc0.ne']

/-- Claim C2, confirmed.  Trailing-summary-row override: whenever the last
record of an extracted grade table has a (positive) grade figure `g` and
credit figure `c` — as the portal's trailing "Durchschnittsnote alle
Module" row always does — the reported summary is exactly
`⟨total_credits := c, current_gpa := g⟩`, the row's own fields, not a
recomputed mean or sum of the data rows. -/
theorem extract_grades_summary_row_override (doc : List TableHtml) (e : Exam) (g c : ℚ)
    (hlast : (extract_grades doc).1.getLast? = some e)
    (hg : e.grade = some g) (hg0 : 0 < g)
    (hc : e.credits = some c) (hc0 : 0 < c) :
    (extract_grades doc).2 = some ⟨c, g⟩ := by
  unfold extract_grades at hlast ⊢
  cases hfind : doc.find? isTargetTable with
  | none => rw [hfind] at hlast; simp at hlast
  | some t =>
    rw [hfind] at hlast
    dsimp only at hlast ⊢
    exact congrArg some (summarize_last_override _ e g c hlast hg hg0 hc hc0)

/-- The spec's override example: exam rows `2.0 / 6 ECTS` and
`1.3 / 9 ECTS` followed by an average row `1.5 / 15 ECTS`. -/
def fixtureSummaryRow : List TableHtml :=
  [[⟨["Nr", "Text", "Sem", "Note", "Status", "ECTS"], []⟩,
    ⟨[], ["1", "Mathematik", "WS23", "2,0", "bestanden", "6"]⟩,
    ⟨[], ["2", "Informatik", "SS24", "1,3", "bestanden", "9"]⟩,
    ⟨[], ["3", "Durchschnittsnote alle Module", "", "1,5", "", "15"]⟩]]

unseal Rat.mul Rat.add Rat.sub Rat.inv in
/-- Witness for C2: on the spec's three-row example the override theorem
applies and extraction reports average `1.5` and total credits `15`. -/
theorem extract_grades_summary_row_override_witness :
    (extract_grades fixtureSummaryRow).1.getLast? =
      some { exam_id := some "3", title := some "Durchschnittsnote alle Module",
             semester := some "", grade := some (3/2), status := some "",
             credits := some 15 } ∧
    (extract_grades fixtureSummaryRow).2 = some ⟨15, 3/2⟩ :=
  ⟨by decide,
   extract_grades_summary_row_override fixtureSummaryRow
     { exam_id := some "3", title := some "Durchschnittsnote alle Module",
       semester := some "", grade := some (3/2), status := some "",
       credits := some 15 }
     (3/2) 15 (by decide) rfl (by decide) rfl (by decide)⟩

unseal Rat.mul Rat.add Rat.sub Rat.inv in
/-- Claim C1, counterexample.  On the spec's end-to-end fixture the claim's
reported total of `9` passing credits is false: the extraction reports
`5` — the trailing-row heuristic takes the last data row ("Fancy AI",
failed, `5` ECTS) as the authoritative total even though that row is not
a summary row. -/
theorem extract_grades_fixture_total_not_nine :
    (extract_grades fixtureEndToEnd).2.map Summary.total_credits ≠ some 9 := by
  decide

unseal Rat.mul Rat.add Rat.sub Rat.inv in
/-- Claim C1, amended.  On the end-to-end fixture, extraction yields
exactly two exam records and an average grade of `2.0`, but the reported
total credits are `5` (the last row's credit figure, promoted to the
official total by the trailing-row heuristic), not the row-by-row passing
total `9`. -/
theorem extract_grades_fixture_amended :
    (extract_grades fixtureEndToEnd).1.length = 2 ∧
    (extract_grades fixtureEndToEnd).2 = some ⟨5, 2⟩ := by
  decide

/-! ## Pass/fail classification (`fetch_grades` in `main.py`) -/

/-- The per-exam classification of `fetch_grades`: a numeric grade is
checked first (`1.0 <= grade <= 4.0` passes); only a row with no numeric
grade falls back to the status text, where any status *containing*
`"bestanden"` — or equal to `"be"` — counts as passed. -/
def is_passed (grade : Option ℚ) (status : Option String) : Bool :=
  let statusVal := pyLower (status.getD "")
  match grade with
  | some g => decide (1 ≤ g ∧ g ≤ 4)
  | none => strContains statusVal "bestanden" || statusVal == "be"

unseal Rat.mul Rat.add Rat.sub Rat.inv in
/-- Claim C3, counterexample.  A row with explicit status
`"nicht bestanden"` and numeric grade `2.0 ≤ 4.0` is classified as
*passed* by `fetch_grades` and its credits *are* accrued by
`extract_grades` — the numeric grade, not the status text, takes
precedence; and even with no grade at all, `"nicht bestanden"` is
classified passed because the status check is substring containment of
`"bestanden"`. -/
theorem nicht_bestanden_classified_passed :
    is_passed (some 2) (some "nicht bestanden") = true ∧
    countsTowardTotal (some "nicht bestanden") (some 2) = true ∧
    is_passed none (some "nicht bestanden") = true := by
  decide

/-- Claim C3, amended.  Status text does not take precedence: every row
with status `"nicht bestanden"` and a numeric grade in `[1.0, 4.0]` is
classified as passed by `fetch_grades` and its credits are counted toward
the passing total by `extract_grades`. -/
theorem nicht_bestanden_passes_amended (g : ℚ) (h1 : 1 ≤ g) (h4 : g ≤ 4) :
    is_passed (some g) (some "nicht bestanden") = true ∧
    countsTowardTotal (some "nicht bestanden") (some g) = true := by
  have hne : g ≠ 0 := (lt_of_lt_of_le one_pos h1).ne'
  constructor
  · simp [is_passed, h1, h4]
  · simp only [countsTowardTotal, Bool.or_eq_true, decide_eq_true_eq]
    exact Or.inr ⟨hne, h4⟩

unseal Rat.mul Rat.add Rat.sub Rat.inv in
/-- Witness for the amended C3, at grade `2.0`. -/
theorem nicht_bestanden_passes_amended_witness :
    ((1:ℚ) ≤ 2 ∧ (2:ℚ) ≤ 4) ∧
    (is_passed (some 2) (some "nicht bestanden") = true ∧
     countsTowardTotal (some "nicht bestanden") (some 2) = true) :=
  ⟨by decide, nicht_bestanden_passes_amended 2 (by decide) (by decide)⟩

/-! ## Ranked-selector element location

Two concrete shapes occur in the source.  The BOSS shape
(`BossScraper.login`) assigns the query result to the target variable
*before* testing visibility; the LSF shape
(`LsfScraper._inject_sso_credentials`) assigns only a visible element.
The DOM is modelled by the query function `find` (first match per
selector, `none` when the lookup raises) and the visibility oracle
`disp`. -/

/-- The BOSS locator loop.  `acc` is the current value of the target
variable (`username_field`, initially `none`); a match is stored in it
even when not displayed, and the loop's final value is returned. -/
def bossLocate (find : ℕ → Option ℕ) (disp : ℕ → Bool) :
    List ℕ → Option ℕ → Option ℕ
  | [], acc => acc
  | s :: rest, acc =>
    match find s with
    | none => bossLocate find disp rest acc
    | some el => if disp el then some el else bossLocate find disp rest (some el)

/-- The LSF locator loop: only a displayed match is ever returned. -/
def lsfLocate (find : ℕ → Option ℕ) (disp : ℕ → Bool) : List ℕ → Option ℕ
  | [] => none
  | s :: rest =>
    match find s with
    | none => lsfLocate find disp rest
    | some el => if disp el then some el else lsfLocate find disp rest

/-- Claim C6, counterexample.  With a single selector whose match is not
visible, the BOSS locator returns that non-visible element instead of
signalling element-not-found (`none`), contradicting the claim for the
BOSS variant of the element-location procedure. -/
theorem bossLocate_returns_hidden_element :
    bossLocate (fun _ => some 0) (fun _ => false) [0] none = some 0 ∧
    (fun _ => false : ℕ → Bool) 0 = false := by
  constructor <;> rfl

/-- The LSF locator never yields a non-visible element. -/
theorem lsfLocate_visible (find : ℕ → Option ℕ) (disp : ℕ → Bool)
    (sels : List ℕ) (el : ℕ) (h : lsfLocate find disp sels = some el) :
    disp el = true := by
  induction sels with
  | nil => simp [lsfLocate] at h
  | cons s rest ih =>
    rw [lsfLocate] at h
    cases hf : find s with
    | none => simp only [hf] at h; exact ih h
    | some e =>
      simp only [hf] at h
      by_cases hd : disp e = true
      · rw [if_pos hd] at h; cases h; exact hd
      · rw [if_neg hd] at h; exact ih h

/-- If no selector yields a visible match, the LSF locator signals
element-not-found. -/
theorem lsfLocate_none_of_no_visible (find : ℕ → Option ℕ) (disp : ℕ → Bool)
    (sels : List ℕ)
    (h : ∀ s ∈ sels, ∀ el, find s = some el → disp el = false) :
    lsfLocate find disp sels = none := by
  induction sels with
  | nil => rfl
  | cons s rest ih =>
    rw [lsfLocate]
    cases hf : find s with
    | none =>
      simp only [hf]
      exact ih fun s' hs' => h s' (List.mem_cons_of_mem _ hs')
    | some e =>
      simp only [hf, h s (List.mem_cons_self _ _) e hf, Bool.false_eq_true, if_false]
      exact ih fun s' hs' => h s' (List.mem_cons_of_mem _ hs')

/-- The LSF locator returns the first visible match: with every selector
before `s` yielding no visible element, a visible match for `s` is the
result. -/
theorem lsfLocate_first_visible (find : ℕ → Option ℕ) (disp : ℕ → Bool)
    (pre post : List ℕ) (s : ℕ) (el : ℕ)
    (hpre : ∀ s' ∈ pre, ∀ e', find s' = some e' → disp e' = false)
    (hs : find s = some el) (hd : disp el = true) :
    lsfLocate find disp (pre ++ s :: post) = some el := by
  induction pre with
  | nil => rw [List.nil_append, lsfLocate]; simp only [hs, if_pos hd]
  | cons p rest ih =>
    rw [List.cons_append, lsfLocate]
    cases hf : find p with
    | none =>
      simp only [hf]
      exact ih fun s' hs' => hpre s' (List.mem_cons_of_mem _ hs')
    | some e =>
      simp only [hf, hpre p (List.mem_cons_self _ _) e hf, Bool.false_eq_true, if_false]
      exact ih fun s' hs' => hpre s' (List.mem_cons_of_mem _ hs')

/-- When a visible match exists, the BOSS locator agrees with the LSF
locator (both stop at the first visible match), for any initial value of
the target variable. -/
theorem bossLocate_agrees_on_visible (find : ℕ → Option ℕ) (disp : ℕ → Bool)
    (sels : List ℕ) (el : ℕ) (h : lsfLocate find disp sels = some el) :
    ∀ acc, bossLocate find disp sels acc = some el := by
  induction sels with
  | nil => simp [lsfLocate] at h
  | cons s rest ih =>
    intro acc
    rw [lsfLocate] at h
    rw [bossLocate]
    cases hf : find s with
    | none => simp only [hf] at h ⊢; exact ih h acc
    | some e =>
      simp only [hf] at h ⊢
      by_cases hd : disp e = true
      · rw [if_pos hd] at h; rw [if_pos hd]; exact h
      · rw [if_neg hd] at h; rw [if_neg hd]; exact ih h (some e)

/-- Claim C6, amended.  The element-location procedure tries candidates in
order and both variants return the first visible match; the LSF variant
never returns a non-visible element and signals element-not-found when no
candidate is visible, but the BOSS variant keeps the last (possibly
non-visible) match in its target variable, so with matching but invisible
candidates it proceeds with a non-visible element instead of signalling
not-found. -/
theorem locator_first_visible_amended (find : ℕ → Option ℕ) (disp : ℕ → Bool)
    (pre post : List ℕ) (s el : ℕ)
    (hpre : ∀ s' ∈ pre, ∀ e', find s' = some e' → disp e' = false)
    (hs : find s = some el) (hd : disp el = true) :
    lsfLocate find disp (pre ++ s :: post) = some el ∧
    bossLocate find disp (pre ++ s :: post) none = some el ∧
    bossLocate (fun _ => some 0) (fun _ => false) [0] none = some 0 := by
  have h1 := lsfLocate_first_visible find disp pre post s el hpre hs hd
  exact ⟨h1, bossLocate_agrees_on_visible find disp _ el h1 none, rfl⟩

/-- Witness for the amended C6 at a concrete DOM: selector `0` matches a
hidden element, selector `1` a visible one. -/
theorem locator_first_visible_amended_witness :
    (∀ s' ∈ [0], ∀ e', (fun s => if s = 0 then some 10 else some 11) s' = some e' →
        (fun e => e == 11) e' = false) ∧
    lsfLocate (fun s => if s = 0 then some 10 else some 11) (fun e => e == 11)
        ([0] ++ 1 :: []) = some 11 :=
  ⟨by decide,
   (locator_first_visible_amended (fun s => if s = 0 then some 10 else some 11)
     (fun e => e == 11) [0] [] 1 11 (by decide) (by decide) (by decide)).1⟩

/-! ## Second-factor handling in the two SSO login paths

`BossScraper.login` inspects the page after submitting credentials and
raises the distinct error `"2FA required but no TOTP secret provided."`
when a challenge is present and no seed was supplied; the decision is
one-shot, never a retry loop.  `LsfScraper._inject_sso_credentials` runs
its 2FA block only when a seed *is* present, and the surrounding
`try/except` turns every failure — including a challenge with no seed —
into `return False`, which `get_current_classes` surfaces as the generic
`"Login failed"`. -/

/-- The challenge phrases `BossScraper.login` searches for. -/
def bossChallengeMarkers : List String :=
  ["one-time password", "second factor", "zweiter faktor", "sicherheitstoken",
   "security token"]

/-- Outcome of the post-submit page inspection in `BossScraper.login`. -/
inductive BossPostSubmit where
  | invalidCredentials
  | secondFactorRequired
  | twoFactorFlow
  | continueToVerify
deriving DecidableEq, Repr

/-- The post-submit decision of `BossScraper.login` (steps "Check for
error" and "Handle 2FA"): explicit failure text wins, then a challenge on
the SSO domain either aborts distinctly (no seed) or enters the token
flow (seed present); otherwise verification proceeds. -/
def bossClassifyPostSubmit (currentUrl rawSource : String) (totp : Option String) :
    BossPostSubmit :=
  let ps := pyLower rawSource
  if strContains ps "login failed" || strContains ps "fehlgeschlagen" then
    .invalidCredentials
  else if strContains currentUrl "sso.itmc" &&
      bossChallengeMarkers.any (fun m => strContains ps m) then
    if totp = none then .secondFactorRequired else .twoFactorFlow
  else .continueToVerify

/-- The guard of the LSF 2FA block: a token is generated and submitted
only when the page shows a challenge marker *and* a seed was supplied. -/
def lsf2faAttempted (src : String) (totp : Option String) : Bool :=
  (strContains (pyLower src) "token" || strContains (pyLower src) "otp") && totp.isSome

/-- Environment of one `_inject_sso_credentials` run: visibility of the
credential fields, the page source after submitting them, and whether the
final wait for the LSF domain succeeds as a function of whether a TOTP
token was submitted. -/
structure LsfSsoEnv where
  usernameFieldVisible : Bool
  passwordFieldVisible : Bool
  sourceAfterSubmit : String
  reachesLsf : Bool → Bool

/-- The function `LsfScraper._inject_sso_credentials`: missing fields raise (caught,
`False`); the 2FA block runs under `lsf2faAttempted`; success is decided
solely by the final wait for the LSF domain. -/
def lsfInjectSsoCredentials (env : LsfSsoEnv) (totp : Option String) : Bool :=
  if !env.usernameFieldVisible then false
  else if !env.passwordFieldVisible then false
  else env.reachesLsf (lsf2faAttempted env.sourceAfterSubmit totp)

/-- The result dict of `LsfScraper.get_current_classes`. -/
inductive LsfResult where
  | classList (names : List String)
  | failure (error : String)
deriving DecidableEq, Repr

/-- The function `get_current_classes`: a failed login is surfaced as the generic
`{"success": False, "error": "Login failed"}`. -/
def lsfGetCurrentClasses (env : LsfSsoEnv) (totp : Option String)
    (names : List String) : LsfResult :=
  if lsfInjectSsoCredentials env totp then .classList names else .failure "Login failed"

/-- Claim C5, counterexample.  In the LSF login path a second-factor
challenge with no TOTP seed is *not* surfaced as a distinct
second-factor category: the 2FA block is skipped and the run ends in the
same generic `"Login failed"` result that an ordinary credential failure
produces — refuting the claim for this site variant. -/
theorem lsf_missing_seed_not_distinct :
    lsf2faAttempted "bitte otp eingeben" none = false ∧
    lsfGetCurrentClasses ⟨true, true, "bitte otp eingeben", fun b => b⟩ none [] =
      .failure "Login failed" ∧
    lsfGetCurrentClasses ⟨true, true, "anmeldung fehlgeschlagen", fun _ => false⟩
      (some "SEED") [] = .failure "Login failed" := by
  refine ⟨rfl, rfl, rfl⟩

/-- Claim C5, amended.  A second-factor challenge with no seed fails
immediately and distinctly (`secondFactorRequired`, one-shot, no retry)
in the BOSS login path; in the LSF path the 2FA block is skipped
(`lsf2faAttempted = false`) and, the page never leaving the SSO domain,
the run surfaces the generic `"Login failed"` — not a distinct category. -/
theorem second_factor_required_amended (url src : String) (env : LsfSsoEnv)
    (hfail : strContains (pyLower src) "login failed" = false)
    (hfail2 : strContains (pyLower src) "fehlgeschlagen" = false)
    (hsso : strContains url "sso.itmc" = true)
    (hmark : bossChallengeMarkers.any (fun m => strContains (pyLower src) m) = true)
    (hu : env.usernameFieldVisible = true) (hp : env.passwordFieldVisible = true)
    (hstuck : env.reachesLsf false = false) :
    bossClassifyPostSubmit url src none = .secondFactorRequired ∧
    lsf2faAttempted env.sourceAfterSubmit none = false ∧
    lsfGetCurrentClasses env none [] = .failure "Login failed" := by
  refine ⟨?_, ?_, ?_⟩
  · simp [bossClassifyPostSubmit, hfail, hfail2, hsso, hmark]
  · simp [lsf2faAttempted]
  · simp [lsfGetCurrentClasses, lsfInjectSsoCredentials, hu, hp, lsf2faAttempted, hstuck]

/-- Witness for the amended C5: a concrete SSO page showing a
`"Zweiter Faktor"` prompt, and an LSF environment stuck on the SSO page. -/
theorem second_factor_required_amended_witness :
    bossClassifyPostSubmit "https://sso.itmc.tu-dortmund.de/idp"
      "Zweiter Faktor erforderlich" none = .secondFactorRequired ∧
    lsfGetCurrentClasses ⟨true, true, "otp erforderlich", fun b => b⟩ none [] =
      .failure "Login failed" :=
  ⟨(second_factor_required_amended "https://sso.itmc.tu-dortmund.de/idp"
      "Zweiter Faktor erforderlich" ⟨true, true, "otp erforderlich", fun b => b⟩
      (by decide) (by decide) (by decide) (by decide) rfl rfl rfl).1,
   (second_factor_required_amended "https://sso.itmc.tu-dortmund.de/idp"
      "Zweiter Faktor erforderlich" ⟨true, true, "otp erforderlich", fun b => b⟩
      (by decide) (by decide) (by decide) (by decide) rfl rfl rfl).2.2⟩

/-! ## Moodle deadline extraction (`MoodleScraper.extract_deadlines`)

Anchors are modelled at the level the source queries them: stripped link
text, `aria-label`, `href`, and the enclosing event row (with its
refined-name element, full text and course element).  The external
engines — the `re` date regex and the two `dateparser.parse` calls — are
parameters of the environment; a parsed date is modelled by its year, the
only component the source's own logic transforms. -/

/-- Python `str.replace(needle, repl)` for a non-empty needle:
non-overlapping left-to-right replacement. -/
def replaceList (needle repl : List Char) (hay : List Char) : List Char :=
  match hay with
  | [] => []
  | c :: t =>
    if needle ≠ [] && listPrefixOf needle (c :: t) then
      repl ++ replaceList needle repl (t.drop (needle.length - 1))
    else c :: replaceList needle repl t
termination_by hay.length
decreasing_by
  · simp [List.length_drop]; omega
  · simp

/-- Python `str.replace` on strings. -/
def pyReplace (hay needle repl : String) : String :=
  ⟨replaceList needle.data repl.data hay.data⟩

/-- Split a char list at the first occurrence of `c`; `none` when absent. -/
def splitFirstOn (c : Char) : List Char → List Char × Option (List Char)
  | [] => ([], none)
  | x :: t =>
    if x = c then ([], some t)
    else
      let r := splitFirstOn c t
      (x :: r.1, r.2)

/-- Split a char list on every occurrence of `c` (Python `str.split(c)`). -/
def splitAllOn (c : Char) (l : List Char) : List (List Char) :=
  l.foldr
    (fun x acc =>
      if x = c then [] :: acc
      else
        match acc with
        | h :: t => (x :: h) :: t
        | [] => [[x]])
    [[]]

/-- Join char-list groups with a separator char. -/
def joinSep (c : Char) : List (List Char) → List Char
  | [] => []
  | [x] => x
  | x :: rest => x ++ c :: joinSep c rest

/-- Python `urllib.parse.parse_qs` on a query string: `&`-separated `k=v` pairs;
pairs without `=` or with a blank value are dropped. -/
def parseQsPairs (q : List Char) : List (List Char × List Char) :=
  (splitAllOn '&' q).filterMap
    (fun p =>
      match splitFirstOn '=' p with
      | (_, none) => none
      | (k, some v) => if v = [] then none else some (k, v))

/-- URL normalisation of `extract_deadlines`: keep only the stable `id`
query parameter and rebuild the URL (no `?` when nothing survives). -/
def normalize_url (u : String) : String :=
  match splitFirstOn '?' u.data with
  | (_, none) => u
  | (path, some q) =>
    let idPairs := (parseQsPairs q).filter (fun kv => kv.1 = "id".data)
    let newQuery := joinSep '&' (idPairs.map (fun kv => kv.1 ++ '=' :: kv.2))
    if newQuery = [] then ⟨path⟩ else ⟨path ++ '?' :: newQuery⟩

/-- Century-rollover guard of `extract_deadlines`: a parsed year more
than 50 years after the current year is corrected by subtracting 100. -/
def correctCenturyRollover (currentYear year : ℤ) : ℤ :=
  if year > currentYear + 50 then year - 100 else year

/-- The enclosing event row of an anchor (`find_parent` result): the
refined-name element text, the row's own text, and the course element
text, each as the source reads them. -/
structure MoodleParentRow where
  betterName : Option String
  rowText : String
  courseText : Option String
deriving DecidableEq, Repr

/-- One activity anchor (`<a href="…mod/assign…">`). -/
structure MoodleAnchor where
  text : String
  ariaLabel : String
  href : String
  parentRow : Option MoodleParentRow
deriving DecidableEq, Repr

/-- External engines and clock of one extraction run. -/
structure MoodleEnv where
  currentYear : ℤ
  regexDate : String → Option String
  dparseStrict : String → Option ℤ
  dparseRelative : String → Option ℤ

/-- The generic link texts that trigger the better-name lookup. -/
def genericLinkNames : List String :=
  ["anzeigen", "abgeben", "details", "submission", "aufgabenlösung hinzufügen"]

/-- One extracted deadline record; the due date is carried by its year
(`none` models the empty string left when nothing parsed). -/
structure DeadlineRecord where
  activity_name : String
  course_name : String
  due_year : Option ℤ
  url : String
deriving DecidableEq, Repr

/-- Per-anchor processing of `extract_deadlines`: skip empty names and
anchors without an event row; refine generic names; build the course
name; run the two-stage date parse with the century guard; return the
record together with its normalised URL (the dedup key). -/
def moodleCandidate (env : MoodleEnv) (a : MoodleAnchor) :
    Option (DeadlineRecord × String) :=
  if a.text = "" then none
  else
    let name :=
      if pyLower a.text ∈ genericLinkNames then
        match a.parentRow with
        | some p => match p.betterName with | some b => b | none => a.text
        | none => a.text
      else a.text
    match a.parentRow with
    | none => none
    | some p =>
      let course :=
        match p.courseText with
        | some ct => pyStrip (pyReplace ct "Kurs: " "")
        | none => ""
      let searchText := a.ariaLabel ++ " " ++ p.rowText
      let cleaned := pyStrip (pyReplace searchText name "")
      let dt0 :=
        match env.regexDate cleaned with
        | some raw => env.dparseStrict raw
        | none => none
      let dt1 :=
        match dt0 with
        | some y => some y
        | none => env.dparseRelative cleaned
      let due := dt1.map (correctCenturyRollover env.currentYear)
      some (⟨name, course, due, a.href⟩, normalize_url a.href)

/-- The dedup loop of `extract_deadlines` over the anchor list, with the
`seen_urls` set threaded through. -/
def moodleDedupLoop (env : MoodleEnv) :
    List MoodleAnchor → List String → List DeadlineRecord
  | [], _ => []
  | a :: rest, seen =>
    match moodleCandidate env a with
    | none => moodleDedupLoop env rest seen
    | some (r, u) =>
      if u ∈ seen then moodleDedupLoop env rest seen
      else r :: moodleDedupLoop env rest (u :: seen)

/-- The `seen_urls` set after processing an anchor list. -/
def moodleSeenAfter (env : MoodleEnv) :
    List MoodleAnchor → List String → List String
  | [], seen => seen
  | a :: rest, seen =>
    match moodleCandidate env a with
    | none => moodleSeenAfter env rest seen
    | some (_, u) =>
      if u ∈ seen then moodleSeenAfter env rest seen
      else moodleSeenAfter env rest (u :: seen)

/-- The function `MoodleScraper.extract_deadlines` on a captured anchor list, starting
from an empty `seen_urls` set. -/
def extract_deadlines (env : MoodleEnv) (anchors : List MoodleAnchor) :
    List DeadlineRecord :=
  moodleDedupLoop env anchors []

/-- The dedup loop distributes over append, threading the seen set. -/
theorem moodleDedupLoop_append (env : MoodleEnv) (l1 l2 : List MoodleAnchor)
    (seen : List String) :
    moodleDedupLoop env (l1 ++ l2) seen =
      moodleDedupLoop env l1 seen ++ moodleDedupLoop env l2 (moodleSeenAfter env l1 seen) := by
  induction l1 generalizing seen with
  | nil => rfl
  | cons a rest ih =>
    rw [List.cons_append, moodleDedupLoop, moodleDedupLoop, moodleSeenAfter]
    cases hc : moodleCandidate env a with
    | none => simp only; exact ih seen
    | some ru =>
      simp only
      by_cases hu : ru.2 ∈ seen
      · rw [if_pos hu, if_pos hu, if_pos hu]; exact ih seen
      · rw [if_neg hu, if_neg hu, if_neg hu, List.cons_append]
        exact congrArg _ (ih (ru.2 :: seen))

/-- The seen set only grows along the loop. -/
theorem mem_moodleSeenAfter (env : MoodleEnv) (l : List MoodleAnchor)
    (seen : List String) (u : String) (h : u ∈ seen) :
    u ∈ moodleSeenAfter env l seen := by
  induction l generalizing seen with
  | nil => exact h
  | cons a rest ih =>
    rw [moodleSeenAfter]
    cases hc : moodleCandidate env a with
    | none => exact ih seen h
    | some ru =>
      simp only
      by_cases hu : ru.2 ∈ seen
      · rw [if_pos hu]; exact ih seen h
      · rw [if_neg hu]; exact ih (ru.2 :: seen) (List.mem_cons_of_mem _ h)

/-- Every candidate URL of a processed anchor ends up in the seen set. -/
theorem candidate_mem_moodleSeenAfter (env : MoodleEnv) (l : List MoodleAnchor)
    (seen : List String) (a : MoodleAnchor) (r : DeadlineRecord) (u : String)
    (ha : a ∈ l) (hc : moodleCandidate env a = some (r, u)) :
    u ∈ moodleSeenAfter env l seen := by
  induction l generalizing seen with
  | nil => cases ha
  | cons b rest ih =>
    rw [moodleSeenAfter]
    rcases List.mem_cons.mp ha with rfl | hmem
    · rw [hc]
      simp only
      by_cases hu : u ∈ seen
      · rw [if_pos hu]; exact mem_moodleSeenAfter env rest seen u hu
      · rw [if_neg hu]
        exact mem_moodleSeenAfter env rest _ u (List.mem_cons_self _ _)
    · cases hcb : moodleCandidate env b with
      | none => exact ih seen hmem
      | some ru =>
        simp only
        by_cases hu : ru.2 ∈ seen
        · rw [if_pos hu]; exact ih seen hmem
        · rw [if_neg hu]; exact ih (ru.2 :: seen) hmem

/-- If every candidate URL of `l` is already seen, the loop adds nothing. -/
theorem moodleDedupLoop_nil_of_seen (env : MoodleEnv) (l : List MoodleAnchor)
    (seen : List String)
    (h : ∀ a ∈ l, ∀ r u, moodleCandidate env a = some (r, u) → u ∈ seen) :
    moodleDedupLoop env l seen = [] := by
  induction l with
  | nil => rfl
  | cons a rest ih =>
    rw [moodleDedupLoop]
    cases hc : moodleCandidate env a with
    | none => exact ih fun b hb => h b (List.mem_cons_of_mem _ hb)
    | some ru =>
      simp only
      rw [if_pos (h a (List.mem_cons_self _ _) ru.1 ru.2 (by rw [hc]))]
      exact ih fun b hb => h b (List.mem_cons_of_mem _ hb)

/-- Claim C8, confirmed.  Deadline deduplication is idempotent: running
the extraction on a duplicated anchor list yields exactly as many records
as on the list itself, because every record's URL — normalised to its
stable `id` query parameter — enters the seen set on the first pass. -/
theorem extract_deadlines_idempotent (env : MoodleEnv) (anchors : List MoodleAnchor) :
    (extract_deadlines env (anchors ++ anchors)).length =
      (extract_deadlines env anchors).length := by
  unfold extract_deadlines
  rw [moodleDedupLoop_append]
  rw [moodleDedupLoop_nil_of_seen env anchors _
    (fun a ha r u hc => candidate_mem_moodleSeenAfter env anchors [] a r u ha hc)]
  simp

/-- Claim C7, confirmed.  Century-rollover correction as applied to every
parsed deadline date: a year more than 50 years after the current year is
corrected by subtracting exactly 100 years, any other year is unchanged;
in particular `currentYear+60` becomes `currentYear-40` and
`currentYear+10` stays. -/
theorem century_rollover_correction (currentYear year : ℤ) :
    (currentYear + 50 < year →
      correctCenturyRollover currentYear year = year - 100) ∧
    (year ≤ currentYear + 50 →
      correctCenturyRollover currentYear year = year) ∧
    correctCenturyRollover currentYear (currentYear + 60) = currentYear - 40 ∧
    correctCenturyRollover currentYear (currentYear + 10) = currentYear + 10 := by
  unfold correctCenturyRollover
  refine ⟨fun h => if_pos h, fun h => if_neg (not_lt.mpr h), ?_, ?_⟩
  · rw [if_pos (by omega)]; ring
  · rw [if_neg (by omega)]

/-- Witness for C7 at the current year 2025: a parsed 2085 is corrected
to 1985, a parsed 2035 is untouched. -/
theorem century_rollover_correction_witness :
    ((2025:ℤ) + 50 < 2085 ∧ correctCenturyRollover 2025 2085 = 1985) ∧
    ((2035:ℤ) ≤ 2025 + 50 ∧ correctCenturyRollover 2025 2035 = 2035) :=
  ⟨⟨by decide, by rw [(century_rollover_correction 2025 2085).1 (by decide)]; decide⟩,
   ⟨by decide, (century_rollover_correction 2025 2035).2.1 (by decide)⟩⟩

/-! ## Course-list extraction (`LsfScraper.extract_current_classes`)

The document is the `soup.descendants` sequence: text nodes, anchor
elements (with their normalised text and `href`) and other elements. -/

/-- Split a char list into groups separated by whitespace. -/
def splitWsGroups (l : List Char) : List (List Char) :=
  l.foldr
    (fun x acc =>
      if x.isWhitespace then [] :: acc
      else
        match acc with
        | h :: t => (x :: h) :: t
        | [] => [[x]])
    [[]]

/-- Collapse runs of whitespace and strip (the source's `normalize`,
`re.sub(r'\s+', ' ', t).strip()`). -/
def normWs (s : String) : String :=
  ⟨joinSep ' ' ((splitWsGroups s.data).filter (· ≠ []))⟩

/-- One node of the `soup.descendants` walk. -/
inductive LsfNode where
  | textNode (s : String)
  | anchorNode (text href : String)
  | elemNode
deriving DecidableEq, Repr

/-- Does a node carry a section marker?  Only text nodes are inspected. -/
def nodeHasMarker (marker : String) : LsfNode → Bool
  | .textNode s => strContains (normWs s) marker
  | _ => false

/-- The test `re.search(r'\d{4,6}', t)`: the text has a run of four digits. -/
def hasDigitRun4 (l : List Char) : Bool :=
  match l with
  | [] => false
  | _ :: t =>
    (((l.take 4).length == 4) && (l.take 4).all Char.isDigit) || hasDigitRun4 t

/-- The denylist of generic link texts (navigation chrome). -/
def lsfJunkWords : List String :=
  ["Tag", "Zeit", "Rhythmus", "Dauer", "Raum", "Lehrperson", "Hinweis",
   "Belegungsinformation", "findet statt", "Belegungs-", "PDF", "Stundenplan",
   "Anmelden", "Login"]

/-- Junk filter: any denylist word occurs (case-insensitively) in the text. -/
def lsfIsJunk (lt : String) : Bool :=
  lsfJunkWords.any (fun j => strContains (pyLower lt) (pyLower j))

/-- Look back up to 20 nodes (but not before the section start) for a
text node containing `"Veranstaltung:"`. -/
def lsfLookback (nodes : List LsfNode) (si i : ℕ) : Bool :=
  (List.range' (max si (i - 20)) (i - max si (i - 20))).any fun j =>
    match nodes.get? j with
    | some (.textNode s) => strContains (normWs s) "Veranstaltung:"
    | _ => false

/-- The in-section scan of `extract_current_classes` over node indices,
with the `seen_names` set threaded through. -/
def lsfClassLoop (nodes : List LsfNode) (si : ℕ) :
    List ℕ → List String → List String
  | [], _ => []
  | i :: rest, seen =>
    match nodes.get? i with
    | some (.anchorNode t _) =>
      let lt := normWs t
      let cand0 := hasDigitRun4 lt.data || lsfLookback nodes si i
      let cand := cand0 && !lsfIsJunk lt && !(lt.data.length < 5)
      if cand then
        if lt ∈ seen then lsfClassLoop nodes si rest seen
        else lt :: lsfClassLoop nodes si rest (lt :: seen)
      else lsfClassLoop nodes si rest seen
    | _ => lsfClassLoop nodes si rest seen

/-- The function `LsfScraper.extract_current_classes`: locate the section markers in
the node walk; without the start marker return `[]` (the source prefers
"empty" over wrong data); otherwise scan the anchors between the
markers. -/
def extract_current_classes (nodes : List LsfNode) : List String :=
  match nodes.findIdx? (nodeHasMarker "Aktuelle Veranstaltungen:") with
  | none => []
  | some si =>
    let ei :=
      match (nodes.drop (si + 1)).findIdx? (nodeHasMarker "Absolvierte Veranstaltungen:") with
      | some k => si + 1 + k
      | none => nodes.length
    lsfClassLoop nodes si (List.range' si (ei - si)) []

/-- Claim C9, confirmed.  On input that does not match the expected portal
markup, extraction degrades to "found nothing": without the course-list
start marker `extract_current_classes` returns `[]`, and without a
marker-bearing grade table `extract_grades` returns the empty record list
and empty summary — both functions are total, so no error is raised. -/
theorem extraction_degrades_to_empty (nodes : List LsfNode) (doc : List TableHtml)
    (hn : ∀ node ∈ nodes, nodeHasMarker "Aktuelle Veranstaltungen:" node = false)
    (hd : ∀ t ∈ doc, isTargetTable t = false) :
    extract_current_classes nodes = [] ∧ extract_grades doc = ([], none) := by
  constructor
  · unfold extract_current_classes
    have hidx : nodes.findIdx? (nodeHasMarker "Aktuelle Veranstaltungen:") = none := by
      rw [List.findIdx?_eq_none_iff]
      intro x hx
      simpa using hn x hx
    rw [hidx]
  · unfold extract_grades
    have hnone : doc.find? isTargetTable = none :=
      List.find?_eq_none.mpr fun x hx => by simp [hd x hx]
    rw [hnone]

/-- Witness for C9: a stray page (one text node, one 3-cell table with no
domain marker) yields the empty class list and the empty grade result. -/
theorem extraction_degrades_to_empty_witness :
    extract_current_classes [.textNode "Impressum und Datenschutz"] = [] ∧
    extract_grades [[⟨[], ["a", "b", "c"]⟩]] = ([], none) :=
  extraction_degrades_to_empty [.textNode "Impressum und Datenschutz"]
    [[⟨[], ["a", "b", "c"]⟩]] (by decide) (by decide)

/-! ## Cache keys (`get_cache_key` in `main.py`)

`hashlib.sha256` is embedded in full over byte lists (naturals `< 256`),
with 32-bit words as naturals reduced `% 2^32`. -/

/-- UTF-8 encoding of one character (`str.encode()`). -/
def utf8Char (c : Char) : List ℕ :=
  let n := c.toNat
  if n < 128 then [n]
  else if n < 2048 then [192 ||| (n >>> 6), 128 ||| (n &&& 63)]
  else if n < 65536 then
    [224 ||| (n >>> 12), 128 ||| ((n >>> 6) &&& 63), 128 ||| (n &&& 63)]
  else
    [240 ||| (n >>> 18), 128 ||| ((n >>> 12) &&& 63), 128 ||| ((n >>> 6) &&& 63),
     128 ||| (n &&& 63)]

/-- UTF-8 encoding of a string. -/
def utf8Bytes (s : String) : List ℕ :=
  (s.data.map utf8Char).join

/-- Rotate a 32-bit word right by `n` bits, reduced modulo `2^32`. -/
def rotr32 (n w : ℕ) : ℕ :=
  ((w >>> n) ||| (w <<< (32 - n))) % 4294967296

/-- Bitwise complement of a 32-bit word. -/
def bnot32 (w : ℕ) : ℕ := w ^^^ 4294967295

/-- SHA-256 `Ch`. -/
def sha2Ch (x y z : ℕ) : ℕ := (x &&& y) ^^^ (bnot32 x &&& z)

/-- SHA-256 `Maj`. -/
def sha2Maj (x y z : ℕ) : ℕ := (x &&& y) ^^^ (x &&& z) ^^^ (y &&& z)

/-- SHA-256 `Σ₀`. -/
def sha2S0 (x : ℕ) : ℕ := rotr32 2 x ^^^ rotr32 13 x ^^^ rotr32 22 x

/-- SHA-256 `Σ₁`. -/
def sha2S1 (x : ℕ) : ℕ := rotr32 6 x ^^^ rotr32 11 x ^^^ rotr32 25 x

/-- SHA-256 `σ₀`. -/
def sha2s0 (x : ℕ) : ℕ := rotr32 7 x ^^^ rotr32 18 x ^^^ (x >>> 3)

/-- SHA-256 `σ₁`. -/
def sha2s1 (x : ℕ) : ℕ := rotr32 17 x ^^^ rotr32 19 x ^^^ (x >>> 10)

/-- The 64 SHA-256 round constants. -/
def sha256K : List ℕ :=
  [1116352408, 1899447441, 3049323471, 3921009573, 961987163,
   1508970993, 2453635748, 2870763221, 3624381080, 310598401,
   607225278, 1426881987, 1925078388, 2162078206, 2614888103,
   3248222580, 3835390401, 4022224774, 264347078, 604807628,
   770255983, 1249150122, 1555081692, 1996064986, 2554220882,
   2821834349, 2952996808, 3210313671, 3336571891, 3584528711,
   113926993, 338241895, 666307205, 773529912, 1294757372,
   1396182291, 1695183700, 1986661051, 2177026350, 2456956037,
   2730485921, 2820302411, 3259730800, 3345764771, 3516065817,
   3600352804, 4094571909, 275423344, 430227734, 506948616,
   659060556, 883997877, 958139571, 1322822218, 1537002063,
   1747873779, 1955562222, 2024104815, 2227730452, 2361852424,
   2428436474, 2756734187, 3204031479, 3329325298]

/-- Encode `n` as `k` big-endian bytes. -/
def natToBytesBE (k n : ℕ) : List ℕ :=
  (List.range k).map fun i => (n >>> (8 * (k - 1 - i))) % 256

/-- SHA-256 padding: `0x80`, zeros to 56 mod 64, 8-byte bit length. -/
def sha256Pad (msg : List ℕ) : List ℕ :=
  let len := msg.length
  let zeros := (119 - len % 64) % 64
  msg ++ 128 :: List.replicate zeros 0 ++ natToBytesBE 8 (8 * len)

/-- Big-endian 32-bit words from bytes. -/
def bytesToWords : List ℕ → List ℕ
  | b0 :: b1 :: b2 :: b3 :: rest =>
    (((b0 * 256 + b1) * 256 + b2) * 256 + b3) :: bytesToWords rest
  | _ => []

/-- Split into 64-byte blocks, with enough fuel to consume the list
(each step shortens a non-empty list, so `l.length` steps suffice). -/
def chunks64Go : ℕ → List ℕ → List (List ℕ)
  | 0, _ => []
  | _, [] => []
  | fuel + 1, x :: t => ((x :: t).take 64) :: chunks64Go fuel ((x :: t).drop 64)

/-- Split into 64-byte blocks. -/
def chunks64 (l : List ℕ) : List (List ℕ) :=
  chunks64Go l.length l

/-- Extend the reversed message schedule by `n` more words. -/
def extendW (rev : List ℕ) : ℕ → List ℕ
  | 0 => rev
  | n + 1 =>
    extendW
      (((sha2s1 (rev.getD 1 0) + rev.getD 6 0 + sha2s0 (rev.getD 14 0) +
          rev.getD 15 0) % 4294967296) :: rev)
      n

/-- The 64-word message schedule of one block. -/
def scheduleOf (block : List ℕ) : List ℕ :=
  (extendW (bytesToWords block).reverse 48).reverse

/-- The eight 32-bit working variables. -/
structure Sha256State where
  a : ℕ
  b : ℕ
  c : ℕ
  d : ℕ
  e : ℕ
  f : ℕ
  g : ℕ
  hh : ℕ
deriving DecidableEq, Repr

/-- The SHA-256 initial hash value. -/
def sha256Init : Sha256State :=
  ⟨1779033703, 3144134277, 1013904242, 2773480762,
   1359893119, 2600822924, 528734635, 1541459225⟩

/-- One compression round; `wk` is the schedule word and round constant. -/
def sha256Round (st : Sha256State) (wk : ℕ × ℕ) : Sha256State :=
  let t1 := (st.hh + sha2S1 st.e + sha2Ch st.e st.f st.g + wk.2 + wk.1) % 4294967296
  let t2 := (sha2S0 st.a + sha2Maj st.a st.b st.c) % 4294967296
  ⟨(t1 + t2) % 4294967296, st.a, st.b, st.c, (st.d + t1) % 4294967296, st.e, st.f,
   st.g⟩

/-- Compress one 64-byte block into the running state. -/
def sha256Block (st : Sha256State) (block : List ℕ) : Sha256State :=
  let r := ((scheduleOf block).zip sha256K).foldl sha256Round st
  ⟨(st.a + r.a) % 4294967296, (st.b + r.b) % 4294967296, (st.c + r.c) % 4294967296,
   (st.d + r.d) % 4294967296, (st.e + r.e) % 4294967296, (st.f + r.f) % 4294967296,
   (st.g + r.g) % 4294967296, (st.hh + r.hh) % 4294967296⟩

/-- A 32-bit word as four big-endian bytes. -/
def wordBytesBE (w : ℕ) : List ℕ :=
  [(w >>> 24) % 256, (w >>> 16) % 256, (w >>> 8) % 256, w % 256]

/-- The state words in emission order. -/
def stateWords (st : Sha256State) : List ℕ :=
  [st.a, st.b, st.c, st.d, st.e, st.f, st.g, st.hh]

/-- The 32 digest bytes of a final state. -/
def digestBytes (st : Sha256State) : List ℕ :=
  ((stateWords st).map wordBytesBE).join

/-- Python `hashlib.sha256(msg).digest()` over byte lists. -/
def sha256 (msg : List ℕ) : List ℕ :=
  digestBytes ((chunks64 (sha256Pad msg)).foldl sha256Block sha256Init)

/-- The lowercase hex digit characters. -/
def hexDigitChar (n : ℕ) : Char :=
  "0123456789abcdef".data.getD n '0'

/-- Two lowercase hex digits of one byte. -/
def byteHex (b : ℕ) : List Char :=
  [hexDigitChar (b / 16 % 16), hexDigitChar (b % 16)]

/-- Python `hexdigest()`: lowercase hex of a byte list. -/
def hexOfBytes (bs : List ℕ) : List Char :=
  (bs.map byteHex).join

/-- The function `get_cache_key` of `main.py`:
`hashlib.sha256(f"{username}:{password}".encode()).hexdigest()[:16]`. -/
def get_cache_key (username : String) (password : String) : String :=
  ⟨(hexOfBytes (sha256 (utf8Bytes (username ++ ":" ++ password)))).take 16⟩

/-- Every byte emitted for a word is `< 256`. -/
theorem wordBytesBE_mem_lt (w : ℕ) : ∀ b ∈ wordBytesBE w, b < 256 := by
  intro b hb
  simp [wordBytesBE] at hb
  rcases hb with rfl | rfl | rfl | rfl <;> exact Nat.mod_lt _ (by norm_num)

/-- A digest has exactly 32 bytes. -/
theorem digestBytes_length (st : Sha256State) : (digestBytes st).length = 32 := by
  simp [digestBytes, stateWords, wordBytesBE]

/-- Every digest byte is `< 256`. -/
theorem digestBytes_mem_lt (st : Sha256State) : ∀ b ∈ digestBytes st, b < 256 := by
  intro b hb
  simp only [digestBytes, List.mem_join, List.mem_map] at hb
  obtain ⟨s, ⟨w, _, rfl⟩, hbs⟩ := hb
  exact wordBytesBE_mem_lt w b hbs

/-- The digest `sha256` always yields 32 bytes. -/
theorem sha256_length (msg : List ℕ) : (sha256 msg).length = 32 :=
  digestBytes_length _

/-- All `sha256` bytes are `< 256`. -/
theorem sha256_mem_lt (msg : List ℕ) : ∀ b ∈ sha256 msg, b < 256 :=
  digestBytes_mem_lt _

/-- Hex output has two characters per byte. -/
theorem hexOfBytes_length (bs : List ℕ) : (hexOfBytes bs).length = 2 * bs.length := by
  induction bs with
  | nil => rfl
  | cons b t ih => simp [hexOfBytes, byteHex] at ih ⊢; omega

/-- Taking `2k` hex characters is hex of the first `k` bytes. -/
theorem hexOfBytes_take (bs : List ℕ) (k : ℕ) :
    (hexOfBytes bs).take (2 * k) = hexOfBytes (bs.take k) := by
  induction bs generalizing k with
  | nil => simp [hexOfBytes]
  | cons b t ih =>
    cases k with
    | zero => simp [hexOfBytes]
    | succ k =>
      have h2 : 2 * (k + 1) = 2 * k + 1 + 1 := by ring
      simp only [hexOfBytes, byteHex, List.map_cons, List.join_cons, List.take_succ_cons,
        List.cons_append, List.nil_append, h2, List.take_succ_cons]
      have := ih k
      simp only [hexOfBytes] at this
      rw [this]

/-- The hex digits of naturals below 16 are pairwise distinct. -/
theorem hexDigitChar_inj : ∀ x < 16, ∀ y < 16, hexDigitChar x = hexDigitChar y → x = y := by
  decide

/-- Hex encoding is injective on equal-length byte lists. -/
theorem hexOfBytes_inj : ∀ (l1 l2 : List ℕ), l1.length = l2.length →
    (∀ b ∈ l1, b < 256) → (∀ b ∈ l2, b < 256) →
    hexOfBytes l1 = hexOfBytes l2 → l1 = l2 := by
  intro l1
  induction l1 with
  | nil =>
    intro l2 hlen _ _ _
    exact (List.length_eq_zero.mp hlen.symm).symm
  | cons a t ih =>
    intro l2 hlen hb1 hb2 heq
    cases l2 with
    | nil => simp at hlen
    | cons b t2 =>
      simp only [hexOfBytes, byteHex, List.map_cons, List.join_cons, List.cons_append,
        List.nil_append, List.cons.injEq] at heq
      obtain ⟨hd1, hd2, hrest⟩ := heq
      have ha : a < 256 := hb1 a (List.mem_cons_self _ _)
      have hbb : b < 256 := hb2 b (List.mem_cons_self _ _)
      have e1 : a / 16 % 16 = b / 16 % 16 :=
        hexDigitChar_inj _ (Nat.mod_lt _ (by norm_num)) _ (Nat.mod_lt _ (by norm_num)) hd1
      have e2 : a % 16 = b % 16 :=
        hexDigitChar_inj _ (Nat.mod_lt _ (by norm_num)) _ (Nat.mod_lt _ (by norm_num)) hd2
      have hab : a = b := by omega
      have ht : t = t2 := by
        apply ih t2 (by simpa using hlen)
          (fun x hx => hb1 x (List.mem_cons_of_mem _ hx))
          (fun x hx => hb2 x (List.mem_cons_of_mem _ hx))
        simpa only [hexOfBytes] using hrest
      rw [hab, ht]

/-- Base-256 value of a byte list (head is the least-weighted byte). -/
def beVal : List ℕ → ℕ
  | [] => 0
  | b :: t => b + 256 * beVal t

/-- The encoding `beVal` is injective on equal-length bounded byte lists. -/
theorem beVal_inj : ∀ (l1 l2 : List ℕ), l1.length = l2.length →
    (∀ b ∈ l1, b < 256) → (∀ b ∈ l2, b < 256) → beVal l1 = beVal l2 → l1 = l2 := by
  intro l1
  induction l1 with
  | nil =>
    intro l2 hlen _ _ _
    exact (List.length_eq_zero.mp hlen.symm).symm
  | cons a t ih =>
    intro l2 hlen hb1 hb2 heq
    cases l2 with
    | nil => simp at hlen
    | cons b t2 =>
      simp only [beVal] at heq
      have ha : a < 256 := hb1 a (List.mem_cons_self _ _)
      have hbb : b < 256 := hb2 b (List.mem_cons_self _ _)
      have ht : beVal t = beVal t2 := by omega
      have hab : a = b := by omega
      rw [hab, ih t2 (by simpa using hlen)
        (fun x hx => hb1 x (List.mem_cons_of_mem _ hx))
        (fun x hx => hb2 x (List.mem_cons_of_mem _ hx)) ht]

/-- The value `beVal` of a bounded list is below `256 ^ length`. -/
theorem beVal_lt : ∀ (l : List ℕ), (∀ b ∈ l, b < 256) → beVal l < 256 ^ l.length := by
  intro l
  induction l with
  | nil => intro _; simp [beVal]
  | cons b t ih =>
    intro hb
    have h1 : b < 256 := hb b (List.mem_cons_self _ _)
    have h2 : beVal t < 256 ^ t.length := ih fun x hx => hb x (List.mem_cons_of_mem _ hx)
    calc beVal (b :: t) = b + 256 * beVal t := rfl
      _ < 256 * (beVal t + 1) := by omega
      _ ≤ 256 * 256 ^ t.length := Nat.mul_le_mul_left _ h2
      _ = 256 ^ (t.length + 1) := (pow_succ' 256 t.length).symm
      _ = 256 ^ (b :: t).length := by simp

/-- The 64-bit fingerprint of a credential message: the base-256 value of
the first eight digest bytes — exactly the information kept by the
16-hex-character truncation of `get_cache_key`. -/
def first8Val (msg : List ℕ) : ℕ :=
  beVal ((sha256 msg).take 8)

/-- The fingerprint fits in 64 bits. -/
theorem first8Val_lt (msg : List ℕ) : first8Val msg < 256 ^ 8 := by
  have hlen : ((sha256 msg).take 8).length = 8 := by
    rw [List.length_take, sha256_length]; rfl
  have := beVal_lt ((sha256 msg).take 8)
    (fun b hb => sha256_mem_lt msg b (List.take_subset _ _ hb))
  rwa [hlen] at this

/-- Claim C4, counterexample.  The claimed injectivity in the secret is
false: the key keeps only 16 hex characters (64 bits) of the digest, so
by pigeonhole over the infinitely many secrets `'a' * n` some two
distinct secrets for the same identity share a cache key. -/
theorem get_cache_key_collision_exists :
    ∃ sA sB : String, sA ≠ sB ∧
      get_cache_key "user" sA = get_cache_key "user" sB := by
  obtain ⟨n, m, hnm, heq⟩ :=
    Finite.exists_ne_map_eq_of_infinite
      (fun n : ℕ =>
        (⟨first8Val (utf8Bytes ("user" ++ ":" ++ ⟨List.replicate n 'a'⟩)),
          first8Val_lt _⟩ : Fin (256 ^ 8)))
  refine ⟨⟨List.replicate n 'a'⟩, ⟨List.replicate m 'a'⟩, ?_, ?_⟩
  · intro hc
    apply hnm
    have hdata : List.replicate n 'a' = List.replicate m 'a' := congrArg String.data hc
    simpa using congrArg List.length hdata
  · have hval := congrArg Fin.val heq
    simp only [first8Val] at hval
    have htake :
        (sha256 (utf8Bytes ("user" ++ ":" ++ ⟨List.replicate n 'a'⟩))).take 8 =
          (sha256 (utf8Bytes ("user" ++ ":" ++ ⟨List.replicate m 'a'⟩))).take 8 := by
      apply beVal_inj _ _ ?_ ?_ ?_ hval
      · rw [List.length_take, List.length_take, sha256_length, sha256_length]
      · exact fun b hb => sha256_mem_lt _ b (List.take_subset _ _ hb)
      · exact fun b hb => sha256_mem_lt _ b (List.take_subset _ _ hb)
    unfold get_cache_key
    rw [show (16:ℕ) = 2 * 8 from rfl, hexOfBytes_take, hexOfBytes_take, htake]

/-- Claim C4, amended.  The cache key is
`hex(sha256(identity ++ ":" ++ secret))[0:16]` by definition; it is
deterministic (equal credentials give equal keys), always 16 characters,
and two secrets give distinct keys exactly when their digests differ in
the first eight bytes — which concrete distinct secrets such as
`"a"`/`"b"` do, but which pigeonhole cannot guarantee for *all* pairs of
distinct secrets. -/
theorem get_cache_key_amended :
    (∀ u1 u2 p1 p2 : String, u1 = u2 → p1 = p2 →
      get_cache_key u1 p1 = get_cache_key u2 p2) ∧
    (∀ u p : String, (get_cache_key u p).length = 16) ∧
    (∀ u p1 p2 : String,
      (sha256 (utf8Bytes (u ++ ":" ++ p1))).take 8 ≠
        (sha256 (utf8Bytes (u ++ ":" ++ p2))).take 8 →
      get_cache_key u p1 ≠ get_cache_key u p2) ∧
    get_cache_key "user" "a" ≠ get_cache_key "user" "b" := by
  refine ⟨?_, ?_, ?_, ?_⟩
  · intro u1 u2 p1 p2 hu hp; rw [hu, hp]
  · intro u p
    have h64 : (hexOfBytes (sha256 (utf8Bytes (u ++ ":" ++ p)))).length = 64 := by
      rw [hexOfBytes_length, sha256_length]
    show ((hexOfBytes (sha256 (utf8Bytes (u ++ ":" ++ p)))).take 16).length = 16
    rw [List.length_take, h64]; rfl
  · intro u p1 p2 hne hkey
    apply hne
    unfold get_cache_key at hkey
    rw [show (16:ℕ) = 2 * 8 from rfl, hexOfBytes_take, hexOfBytes_take] at hkey
    have hhex :
        hexOfBytes ((sha256 (utf8Bytes (u ++ ":" ++ p1))).take 8) =
          hexOfBytes ((sha256 (utf8Bytes (u ++ ":" ++ p2))).take 8) :=
      congrArg String.data hkey
    apply hexOfBytes_inj _ _ ?_ ?_ ?_ hhex
    · rw [List.length_take, List.length_take, sha256_length, sha256_length]
    · exact fun b hb => sha256_mem_lt _ b (List.take_subset _ _ hb)
    · exact fun b hb => sha256_mem_lt _ b (List.take_subset _ _ hb)
  · decide

/-- Witness for the amended C4: determinism at `("user","pw")` and
distinctness at the concrete secrets `"a"` and `"b"`, whose digests are
checked to differ in the first eight bytes. -/
theorem get_cache_key_amended_witness :
    get_cache_key "user" "pw" = get_cache_key "user" "pw" ∧
    ((sha256 (utf8Bytes ("user" ++ ":" ++ "a"))).take 8 ≠
        (sha256 (utf8Bytes ("user" ++ ":" ++ "b"))).take 8 ∧
      get_cache_key "user" "a" ≠ get_cache_key "user" "b") :=
  ⟨get_cache_key_amended.1 "user" "user" "pw" "pw" rfl rfl,
   by decide,
   get_cache_key_amended.2.2.1 "user" "a" "b" (by decide)⟩

/-! ## Cache invalidation (`invalidate_user_cache` in `main.py`)

The two TTL caches (`user_login_cache`, `user_grades_cache`) are modelled
as association lists with unique keys; `del cache[key]` guarded by
`key in cache` is key erasure, `cache.clear()` is the empty list.  The
source's omitted-secret call uses the default `password=""`, so the
empty string and the omitted secret are literally the same call. -/

/-- Dictionary lookup on an association list. -/
def lookupKey {α : Type} (k : String) : List (String × α) → Option α
  | [] => none
  | e :: t => if e.1 = k then some e.2 else lookupKey k t

/-- Key deletion, `if key in cache: del cache[key]`. -/
def eraseKey {α : Type} (k : String) : List (String × α) → List (String × α)
  | [] => []
  | e :: t => if e.1 = k then eraseKey k t else e :: eraseKey k t

/-- The function `invalidate_user_cache`: a truthy (non-empty) password erases only
the credential-derived key from both caches; a falsy password clears
both caches entirely. -/
def invalidate_user_cache {α β : Type} (username password : String)
    (login : List (String × α)) (grades : List (String × β)) :
    List (String × α) × List (String × β) :=
  if password ≠ "" then
    (eraseKey (get_cache_key username password) login,
     eraseKey (get_cache_key username password) grades)
  else ([], [])

/-- Erasing a key removes it. -/
theorem lookupKey_eraseKey_self {α : Type} (k : String) (c : List (String × α)) :
    lookupKey k (eraseKey k c) = none := by
  induction c with
  | nil => rfl
  | cons e t ih =>
    rw [eraseKey]
    by_cases he : e.1 = k
    · rw [if_pos he]; exact ih
    · rw [if_neg he, lookupKey, if_neg he]; exact ih

/-- Erasing a key leaves every other key's entry untouched. -/
theorem lookupKey_eraseKey_ne {α : Type} (k erased : String) (c : List (String × α))
    (h : k ≠ erased) : lookupKey k (eraseKey erased c) = lookupKey k c := by
  induction c with
  | nil => rfl
  | cons e t ih =>
    rw [eraseKey, lookupKey]
    by_cases he : e.1 = erased
    · rw [if_pos he, if_neg (by rw [he]; exact fun hc => h hc.symm)]
      exact ih
    · rw [if_neg he, lookupKey]
      by_cases hk : e.1 = k
      · rw [if_pos hk, if_pos hk]
      · rw [if_neg hk, if_neg hk]; exact ih

/-- Claim C10, confirmed.  Invalidation with the empty-string secret —
which is exactly the omitted-secret call, `password=""` being the
default — clears both caches entirely, for every user's entries; only a
non-empty secret restricts removal to the single credential-derived key,
leaving every other key's entries in both caches untouched. -/
theorem invalidate_user_cache_semantics {α β : Type} (username password : String)
    (login : List (String × α)) (grades : List (String × β)) :
    invalidate_user_cache username "" login grades = ([], []) ∧
    (password ≠ "" →
      lookupKey (get_cache_key username password)
          (invalidate_user_cache username password login grades).1 = none ∧
      lookupKey (get_cache_key username password)
          (invalidate_user_cache username password login grades).2 = none ∧
      ∀ k, k ≠ get_cache_key username password →
        lookupKey k (invalidate_user_cache username password login grades).1 =
          lookupKey k login ∧
        lookupKey k (invalidate_user_cache username password login grades).2 =
          lookupKey k grades) := by
  constructor
  · simp [invalidate_user_cache]
  · intro hp
    unfold invalidate_user_cache
    rw [if_pos hp]
    exact ⟨lookupKey_eraseKey_self _ _, lookupKey_eraseKey_self _ _,
      fun k hk =>
        ⟨lookupKey_eraseKey_ne _ _ _ hk, lookupKey_eraseKey_ne _ _ _ hk⟩⟩

/-- Witness for C10 at concrete caches: the credential key is gone, an
unrelated key survives, and the empty-string call clears everything. -/
theorem invalidate_user_cache_semantics_witness :
    invalidate_user_cache "alice" ""
      [(get_cache_key "alice" "secret", 0), ("otherkey", 1)]
      [(get_cache_key "alice" "secret", 2)] = ([], []) ∧
    ("secret" ≠ "" ∧
      lookupKey (get_cache_key "alice" "secret")
        (invalidate_user_cache "alice" "secret"
          [(get_cache_key "alice" "secret", 0), ("otherkey", 1)]
          [(get_cache_key "alice" "secret", 2)]).1 = none) :=
  ⟨(invalidate_user_cache_semantics "alice" "secret"
      [(get_cache_key "alice" "secret", 0), ("otherkey", 1)]
      [(get_cache_key "alice" "secret", 2)]).1,
   by decide,
   ((invalidate_user_cache_semantics "alice" "secret"
      [(get_cache_key "alice" "secret", 0), ("otherkey", 1)]
      [(get_cache_key "alice" "secret", 2)]).2 (by decide)).1⟩
